import Mathlib

/-!
Verification of the Document Structure Inference pipeline
(`feature_extraction.py`, `infer.py`).

Modelling conventions:
* Python floats are modelled as exact rationals (`ℚ`).
* A pandas `DataFrame` is a `List` of row structures; boolean feature
  columns store the `int(...)` conversion the source performs (0 or 1, as `ℚ`).
* `Series.std()` uses `ddof = 1`; on fewer than two rows it is NaN and every
  comparison against it is false.  This is modelled by guarding the heuristic
  thresholds with a two-row condition (`hhdStdDefined`).
* `fs >= mean + k*std` (with `std = sqrt var`, `k ≥ 0`) is embedded as the
  equivalent rational test `mean ≤ fs ∧ k^2 * var ≤ (fs - mean)^2`, which
  avoids irrational square roots while agreeing with the source on every input
  where `std` is defined (`fsAtLeastThreshold_iff` proves the equivalence).
-/

/-- A raw text span as produced by `PDFFeatureExtractor.extract_text_spans`:
text (already stripped), font size, font flag bit-set, bounding box
`(x0, y0, x1, y1)`, 1-based page number and page dimensions. -/
structure Span where
  text : String
  font_size : ℚ
  flags : Nat
  x0 : ℚ
  y0 : ℚ
  x1 : ℚ
  y1 : ℚ
  page_number : Int
  page_width : ℚ
  page_height : ℚ
deriving DecidableEq

/-- One row of the feature table built by
`PDFFeatureExtractor.calculate_features`: the originating `text` and
`page_number` plus the 16 numeric features (booleans stored as 0/1). -/
structure FeatureRow where
  text : String
  page_number : Int
  font_size : ℚ
  is_bold : ℚ
  is_italic : ℚ
  x_position : ℚ
  y_position : ℚ
  text_length : ℚ
  is_uppercase : ℚ
  is_title_case : ℚ
  is_centered : ℚ
  line_spacing : ℚ
  font_size_ratio : ℚ
  position_ratio : ℚ
  word_count : ℚ
  has_numbers : ℚ
  starts_with_number : ℚ
deriving DecidableEq

/-- A feature row after the model's predictions were attached
(`features_df['predicted_class']`, `features_df['max_probability']`). -/
structure ARow extends FeatureRow where
  predicted_class : Int
  max_probability : ℚ
deriving DecidableEq

/-- One outline entry emitted by `_extract_outline`. -/
structure Heading where
  level : String
  text : String
  page : Int
deriving DecidableEq

/-- The result dictionary returned by `process_pdf`. -/
structure DocResult where
  title : String
  outline : List Heading
deriving DecidableEq

/-- Python `str.isupper` (ASCII model): at least one cased character and no
lowercase cased character. -/
def pyIsUpper (s : String) : Bool :=
  s.any Char.isAlpha && s.all (fun c => !c.isLower)

/-- Python `str.istitle` (ASCII model): uppercase characters only follow
uncased characters, lowercase characters only follow cased ones, and at least
one cased character occurs. -/
def pyIsTitle (s : String) : Bool :=
  let step := fun (st : Bool × Bool × Bool) (c : Char) =>
    let prevCased := st.1
    let seenCased := st.2.1
    let ok := st.2.2
    if c.isUpper then (true, true, ok && !prevCased)
    else if c.isLower then (true, true, ok && prevCased)
    else (false, seenCased, ok)
  let r := s.foldl step (false, false, true)
  r.2.1 && r.2.2

/-- Python `len(text.split())`: number of maximal whitespace-free chunks. -/
def pyWordCount (s : String) : Nat :=
  ((s.split Char.isWhitespace).filter (fun t => !t.isEmpty)).length

/-- Python `bool(re.search(r'\d', text))`. -/
def pyHasNumbers (s : String) : Bool :=
  s.any Char.isDigit

/-- Python `bool(re.match(r'^\d', text.strip()))`. -/
def pyStartsWithNumber (s : String) : Bool :=
  match s.trim.data with
  | [] => false
  | c :: _ => c.isDigit

/-- Python `max(font_sizes) if font_sizes else 1` over the document's font
sizes (`calculate_features`, global statistics pass). -/
def docMaxFontSize (spans : List Span) : ℚ :=
  match spans.map Span.font_size with
  | [] => 1
  | x :: xs => xs.foldl max x

/-- The per-span body of `PDFFeatureExtractor.calculate_features`: computes
the 16-feature vector for one span, given the document-wide maximum font
size. -/
def featureOfSpan (max_font_size : ℚ) (s : Span) : FeatureRow :=
  { text := s.text
    page_number := s.page_number
    font_size := s.font_size
    is_bold := if s.flags &&& 2 ^ 4 ≠ 0 then 1 else 0
    is_italic := if s.flags &&& 2 ^ 1 ≠ 0 then 1 else 0
    x_position := s.x0
    y_position := s.y0
    text_length := (s.text.length : ℚ)
    is_uppercase := if pyIsUpper s.text then 1 else 0
    is_title_case := if pyIsTitle s.text then 1 else 0
    is_centered := if |s.x0 - s.page_width / 2| < s.page_width * (1 / 10) then 1 else 0
    line_spacing := s.y1 - s.y0
    font_size_ratio := if 0 < max_font_size then s.font_size / max_font_size else 0
    position_ratio := if 0 < s.page_height then s.y0 / s.page_height else 0
    word_count := (pyWordCount s.text : ℚ)
    has_numbers := if pyHasNumbers s.text then 1 else 0
    starts_with_number := if pyStartsWithNumber s.text then 1 else 0 }

/-- `PDFFeatureExtractor.calculate_features`: empty input yields an empty
table; otherwise one row per span, in input order, normalised against the
document-wide maximum font size.  (The source also computes `min` and `mean`
of the font sizes but never uses them in the feature vector.) -/
def calculate_features (spans : List Span) : List FeatureRow :=
  if spans.isEmpty then []
  else spans.map (featureOfSpan (docMaxFontSize spans))

/-- `features_df[features_df['page_number'] == 1]`. -/
def pageOneRows (features_df : List ARow) : List ARow :=
  features_df.filter (fun r => decide (r.page_number = 1))

/-- `first_page['font_size'].max()` in `identify_title_heuristic`
(value on an empty list is irrelevant: the source never reads it there). -/
def pageOneMaxFontSize (first_page : List ARow) : ℚ :=
  match first_page.map (fun r => r.font_size) with
  | [] => 0
  | x :: xs => xs.foldl max x

/-- `title_candidates` in `identify_title_heuristic`: page-1 rows whose font
size equals the page-1 maximum and which are bold, in input order. -/
def titleBoldMaxRows (features_df : List ARow) : List ARow :=
  (pageOneRows features_df).filter
    (fun r => decide (r.font_size = pageOneMaxFontSize (pageOneRows features_df)
      ∧ r.is_bold = 1))

/-- `largest_text` in `identify_title_heuristic`: page-1 rows whose font size
equals the page-1 maximum, in input order. -/
def titleMaxRows (features_df : List ARow) : List ARow :=
  (pageOneRows features_df).filter
    (fun r => decide (r.font_size = pageOneMaxFontSize (pageOneRows features_df)))

/-- `PDFFeatureExtractor.identify_title_heuristic`: on the first page, the
first row whose font size is the page-1 maximum and which is bold; failing
that, the first row whose font size is the page-1 maximum; `None` when the
table or its first page is empty. -/
def identify_title_heuristic (features_df : List ARow) : Option String :=
  if features_df.isEmpty then none
  else if (pageOneRows features_df).isEmpty then none
  else
    match titleBoldMaxRows features_df with
    | c :: _ => some c.text
    | [] =>
      match titleMaxRows features_df with
      | l :: _ => some l.text
      | [] => none

/-- `DocumentStructureInference.confidence_threshold`. -/
def confidence_threshold : ℚ := 6 / 10

/-- The filter applied to page-1 rows in `_extract_title`:
`predicted_class == 3` and `max_probability > confidence_threshold`. -/
def pageOneConfidentH1 (features_df : List ARow) : List ARow :=
  (pageOneRows features_df).filter
    (fun r => decide (r.predicted_class = 3 ∧ confidence_threshold < r.max_probability))

/-- `Series.idxmax` followed by `.loc`: the first row (input order) attaining
the maximum `font_size`; `none` on an empty frame. -/
def idxmaxFontSize : List ARow → Option ARow
  | [] => none
  | r :: rs =>
    match idxmaxFontSize rs with
    | none => some r
    | some m => if r.font_size < m.font_size then some m else some r

/-- `DocumentStructureInference._extract_title`: classifier path (confident
page-1 H1 of largest font size, first occurrence on ties), falling back to
`identify_title_heuristic`, with `None`/empty mapped to `""`.  (The source's
`first_page.empty` guard is subsumed: `pageOneConfidentH1` is empty whenever
the first page is.) -/
def extract_title (features_df : List ARow) : String :=
  match idxmaxFontSize (pageOneConfidentH1 features_df) with
  | some title_candidate => title_candidate.text
  | none =>
    match identify_title_heuristic features_df with
    | some title => title
    | none => ""

/-- Number of rows of the feature table (for the `std` definedness guard). -/
def hhdStdDefined (features_df : List ARow) : Bool :=
  decide (2 ≤ features_df.length)

/-- `features_df['font_size'].mean()`. -/
def hhdMeanFontSize (features_df : List ARow) : ℚ :=
  ((features_df.map (fun r => r.font_size)).sum) / (features_df.length : ℚ)

/-- The square of `features_df['font_size'].std()` (sample variance,
`ddof = 1`); only meaningful when at least two rows exist. -/
def hhdVarFontSize (features_df : List ARow) : ℚ :=
  ((features_df.map (fun r => (r.font_size - hhdMeanFontSize features_df) ^ 2)).sum)
    / ((features_df.length : ℚ) - 1)

/-- Rational embedding of `font_size >= mean + k*std` for `k ≥ 0` and
`std = sqrt var ≥ 0`: equivalent to `mean ≤ fs ∧ k^2·var ≤ (fs - mean)^2`
(`fsAtLeastThreshold_iff`). -/
def fsAtLeastThreshold (fs mean var k2 : ℚ) : Bool :=
  decide (mean ≤ fs ∧ k2 * var ≤ (fs - mean) ^ 2)

/-- The `np.select` body of `_heuristic_heading_detection`: first matching
condition wins; every comparison against an undefined (NaN) `std` is false,
hence the `stdDef` guard. -/
def heuristicClass (mean var : ℚ) (stdDef : Bool) (r : ARow) : Int :=
  if stdDef && fsAtLeastThreshold r.font_size mean var (9 / 4)
      && decide (r.is_bold = 1) then 3
  else if stdDef && fsAtLeastThreshold r.font_size mean var 1
      && decide (r.is_bold = 1) then 2
  else if stdDef && fsAtLeastThreshold r.font_size mean var (1 / 4)
      && (decide (r.is_bold = 1) || decide (r.is_uppercase = 1)) then 1
  else 0

/-- `DocumentStructureInference._heuristic_heading_detection`: reclassifies
every row by the font-size thresholds, sets `max_probability` to 1.0, and
keeps only the rows with `predicted_class > 0`. -/
def heuristic_heading_detection (features_df : List ARow) : List ARow :=
  let mean := hhdMeanFontSize features_df
  let var := hhdVarFontSize features_df
  let sd := hhdStdDefined features_df
  (features_df.map (fun r =>
      { r with predicted_class := heuristicClass mean var sd r, max_probability := 1 })).filter
    (fun r => decide (0 < r.predicted_class))

/-- The confident-heading filter of `_extract_outline`:
`predicted_class.isin([1, 2, 3])` and `max_probability > confidence_threshold`. -/
def isConfidentHeading (r : ARow) : Bool :=
  decide ((r.predicted_class = 1 ∨ r.predicted_class = 2 ∨ r.predicted_class = 3)
    ∧ confidence_threshold < r.max_probability)

/-- The candidate set of `_extract_outline` before sorting: the confident
classifier rows, or — when there are none in the whole document — the
heuristic detector's output over the whole table. -/
def chosenCandidates (features_df : List ARow) : List ARow :=
  let headings := features_df.filter isConfidentHeading
  if headings.isEmpty then heuristic_heading_detection features_df else headings

/-- Strict lexicographic order on `(page_number, y_position)`. -/
def rowLt (a b : ARow) : Bool :=
  decide (a.page_number < b.page_number
    ∨ (a.page_number = b.page_number ∧ a.y_position < b.y_position))

/-- Stable insertion into a list: `r` goes in front of the first element not
strictly below it, so equal keys keep their original relative order. -/
def insertRow (r : ARow) : List ARow → List ARow
  | [] => [r]
  | x :: xs => if rowLt x r then x :: insertRow r xs else r :: x :: xs

/-- `sort_values(['page_number', 'y_position'])`: pandas uses `np.lexsort`
for multi-column sorts, which is stable; modelled by stable insertion sort. -/
def sortByPageY : List ARow → List ARow
  | [] => []
  | x :: xs => insertRow x (sortByPageY xs)

/-- `level_map.get(predicted_class, 'H3')` with
`level_map = {3: 'H1', 2: 'H2', 1: 'H3'}`. -/
def levelOfClass (c : Int) : String :=
  if c = 3 then "H1" else if c = 2 then "H2" else if c = 1 then "H3" else "H3"

/-- One outline entry built from a candidate row. -/
def mkHeading (r : ARow) : Heading :=
  { level := levelOfClass r.predicted_class, text := r.text, page := r.page_number }

/-- `DocumentStructureInference._extract_outline`: choose the candidate set
(classifier rows or heuristic fallback, all-or-nothing), sort by
`(page_number, y_position)`, and emit the level/text/page dictionaries. -/
def extract_outline (features_df : List ARow) : List Heading :=
  (sortByPageY (chosenCandidates features_df)).map mkHeading

/-- Attaching `predict`/`predict_proba` results to the feature table:
row-aligned `predicted_class` and `max_probability` columns. -/
def annotate (features_df : List FeatureRow) (preds : List (Int × ℚ)) : List ARow :=
  (features_df.zip preds).map (fun p =>
    { toFeatureRow := p.1, predicted_class := p.2.1, max_probability := p.2.2 })

/-- `DocumentStructureInference.process_pdf`, with the span source already
applied and the classifier port abstracted as a function from the feature
table to row-aligned `(class, max probability)` pairs: empty feature tables
short-circuit to `{"title": "", "outline": []}`. -/
def process_pdf (classify : List FeatureRow → List (Int × ℚ)) (spans : List Span) : DocResult :=
  let features_df := calculate_features spans
  if features_df.isEmpty then { title := "", outline := [] }
  else
    let adf := annotate features_df (classify features_df)
    { title := extract_title adf, outline := extract_outline adf }

/-- Rows sharing one concrete sort key `(page_number, y_position)` — the
rows whose relative order a stable sort must preserve. -/
def keyMatches (p : Int) (y : ℚ) (t : ARow) : Bool :=
  decide (t.page_number = p ∧ t.y_position = y)

/-- Non-strict lexicographic order on `(page_number, y_position)`: the
reading order `_extract_outline` sorts by. -/
def rowle (a b : ARow) : Prop :=
  a.page_number < b.page_number ∨ (a.page_number = b.page_number ∧ a.y_position ≤ b.y_position)

/-- The Heuristic Heading Detector's classification rule as the
specification words it, with the sample standard deviation `std` passed
explicitly: H1 if `font_size ≥ mean + 1.5·std` and bold, else H2 if
`font_size ≥ mean + 1.0·std` and bold, else H3 if
`font_size ≥ mean + 0.5·std` and (bold or uppercase), else body (0). -/
def specHeuristicClass (mean std : ℚ) (r : ARow) : Int :=
  if mean + (3 / 2) * std ≤ r.font_size ∧ r.is_bold = 1 then 3
  else if mean + 1 * std ≤ r.font_size ∧ r.is_bold = 1 then 2
  else if mean + (1 / 2) * std ≤ r.font_size ∧ (r.is_bold = 1 ∨ r.is_uppercase = 1) then 1
  else 0

/-- The Heuristic Heading Detector as the specification words it:
classify every row by `specHeuristicClass`, give every row
`max_probability = 1.0`, and keep exactly the rows whose class is not
body. -/
def specHeuristicDetection (mean std : ℚ) (features_df : List ARow) : List ARow :=
  (features_df.map (fun r =>
      { r with predicted_class := specHeuristicClass mean std r, max_probability := 1 })).filter
    (fun r => decide (r.predicted_class ≠ 0))

/-- A feature row with the fields the resolvers inspect made explicit; the
remaining features are fixed at neutral values.  Used to instantiate the
theorems on concrete tables. -/
def sampleRow (t : String) (pg : Int) (fs bold upper y : ℚ) (pc : Int) (mp : ℚ) : ARow :=
  { text := t, page_number := pg, font_size := fs, is_bold := bold, is_italic := 0,
    x_position := 0, y_position := y, text_length := (t.length : ℚ), is_uppercase := upper,
    is_title_case := 0, is_centered := 0, line_spacing := 1, font_size_ratio := 0,
    position_ratio := 0, word_count := 1, has_numbers := 0, starts_with_number := 0,
    predicted_class := pc, max_probability := mp }

/-- Concrete annotated table with confident classifier predictions. -/
def wdfConfident : List ARow :=
  [sampleRow "Introduction" 1 20 1 0 10 3 (95 / 100),
   sampleRow "body text" 1 11 0 0 30 0 (9 / 10),
   sampleRow "Details" 2 14 1 0 5 2 (7 / 10)]

/-- Concrete table with no confident prediction whose bold page-1 maximum
row is second in input order. -/
def wdfFallback : List ARow :=
  [sampleRow "small" 1 10 0 0 5 0 (1 / 2),
   sampleRow "TITLE" 1 24 1 1 10 0 (1 / 2),
   sampleRow "big" 1 24 0 0 20 0 (1 / 2)]

/-- Three-row table whose sample font-size variance is the perfect square 4
(font sizes 14, 12, 10: mean 12, variance (4 + 0 + 4) / 2). -/
def wdfVariance : List ARow :=
  [sampleRow "Heading" 1 14 1 0 10 0 (1 / 2),
   sampleRow "middle" 1 12 0 0 20 0 (1 / 2),
   sampleRow "small" 1 10 0 0 30 0 (1 / 2)]

/-- A single row that is not classifier-confident. -/
def wRowSingle : ARow := sampleRow "Lonely Giant Heading" 1 99 1 1 10 0 (1 / 2)

/-- A span sitting exactly at the horizontal centre of its page. -/
def wSpanCentered : Span :=
  { text := "Report Title", font_size := 24, flags := 16, x0 := 300, y0 := 40,
    x1 := 340, y1 := 52, page_number := 1, page_width := 600, page_height := 800 }

/-- A span at the left edge of its page. -/
def wSpanLeft : Span :=
  { text := "left body", font_size := 12, flags := 0, x0 := 0, y0 := 120,
    x1 := 80, y1 := 132, page_number := 1, page_width := 600, page_height := 800 }

/-- A two-span document with positive font sizes. -/
def wSpans : List Span := [wSpanCentered, wSpanLeft]

theorem rowle_of_rowLt {a b : ARow} (h : rowLt a b = true) : rowle a b := by
  simp only [rowLt, decide_eq_true_eq] at h
  rcases h with h | ⟨h1, h2⟩
  · exact Or.inl h
  · exact Or.inr ⟨h1, le_of_lt h2⟩

theorem rowle_of_not_rowLt {a b : ARow} (h : rowLt a b = false) : rowle b a := by
  simp only [rowLt, decide_eq_false_iff_not, not_or, not_and, not_lt] at h
  obtain ⟨h1, h2⟩ := h
  rcases lt_or_eq_of_le h1 with hlt | heq
  · exact Or.inl hlt
  · exact Or.inr ⟨heq, h2 heq.symm⟩

theorem rowle_trans {a b c : ARow} (hab : rowle a b) (hbc : rowle b c) : rowle a c := by
  rcases hab with h1 | ⟨h1, h2⟩ <;> rcases hbc with h3 | ⟨h3, h4⟩
  · exact Or.inl (lt_trans h1 h3)
  · exact Or.inl (h3 ▸ h1)
  · exact Or.inl (h1 ▸ h3)
  · exact Or.inr ⟨h1.trans h3, le_trans h2 h4⟩

theorem mem_insertRow {x r : ARow} {s : List ARow} :
    x ∈ insertRow r s ↔ x = r ∨ x ∈ s := by
  induction s with
  | nil => simp [insertRow]
  | cons a as ih =>
    by_cases h : rowLt a r = true
    · rw [insertRow, if_pos h]
      simp only [List.mem_cons, ih]
      tauto
    · rw [insertRow, if_neg h]
      simp only [List.mem_cons]

theorem insertRow_perm (r : ARow) (s : List ARow) :
    List.Perm (insertRow r s) (r :: s) := by
  induction s with
  | nil => exact List.Perm.refl _
  | cons a as ih =>
    by_cases h : rowLt a r = true
    · rw [insertRow, if_pos h]
      exact (ih.cons a).trans (List.Perm.swap r a as)
    · rw [insertRow, if_neg h]

theorem sortByPageY_perm (l : List ARow) : List.Perm (sortByPageY l) l := by
  induction l with
  | nil => exact List.Perm.refl _
  | cons a as ih =>
    exact (insertRow_perm a (sortByPageY as)).trans (ih.cons a)

theorem pairwise_insertRow {r : ARow} {s : List ARow} (h : s.Pairwise rowle) :
    (insertRow r s).Pairwise rowle := by
  induction s with
  | nil => simp [insertRow, List.pairwise_cons]
  | cons a as ih =>
    rw [List.pairwise_cons] at h
    obtain ⟨ha, has⟩ := h
    by_cases hlt : rowLt a r = true
    · rw [insertRow, if_pos hlt, List.pairwise_cons]
      refine ⟨?_, ih has⟩
      intro y hy
      rcases mem_insertRow.mp hy with rfl | hy
      · exact rowle_of_rowLt hlt
      · exact ha y hy
    · rw [insertRow, if_neg hlt, List.pairwise_cons]
      have hra : rowle r a := rowle_of_not_rowLt (Bool.eq_false_iff.mpr hlt)
      refine ⟨?_, List.pairwise_cons.mpr ⟨ha, has⟩⟩
      intro y hy
      rcases List.mem_cons.mp hy with rfl | hy
      · exact hra
      · exact rowle_trans hra (ha y hy)

theorem sortByPageY_sorted (l : List ARow) : (sortByPageY l).Pairwise rowle := by
  induction l with
  | nil => simp [sortByPageY]
  | cons a as ih => exact pairwise_insertRow ih

theorem keyMatches_false_of_rowLt {p : Int} {y : ℚ} {x r : ARow}
    (hlt : rowLt x r = true) (hx : keyMatches p y x = true)
    (hr : keyMatches p y r = true) : False := by
  simp only [keyMatches, decide_eq_true_eq] at hx hr
  obtain ⟨hx1, hx2⟩ := hx
  obtain ⟨hr1, hr2⟩ := hr
  simp only [rowLt, decide_eq_true_eq] at hlt
  rcases hlt with h | ⟨h1, h2⟩
  · rw [hx1, hr1] at h
    exact lt_irrefl p h
  · rw [hx2, hr2] at h2
    exact lt_irrefl y h2

theorem filter_key_insertRow (p : Int) (y : ℚ) (r : ARow) (s : List ARow) :
    (insertRow r s).filter (keyMatches p y) =
      if keyMatches p y r = true then r :: s.filter (keyMatches p y)
      else s.filter (keyMatches p y) := by
  induction s with
  | nil =>
    rw [insertRow, List.filter_cons]
  | cons x xs ih =>
    by_cases hlt : rowLt x r = true
    · rw [insertRow, if_pos hlt, List.filter_cons, ih, List.filter_cons]
      by_cases hx : keyMatches p y x = true
      · by_cases hr : keyMatches p y r = true
        · exact absurd hr (fun h => keyMatches_false_of_rowLt hlt hx h)
        · rw [if_pos hx, if_neg hr, if_neg hr, if_pos hx]
      · by_cases hr : keyMatches p y r = true
        · rw [if_neg hx, if_pos hr, if_pos hr, if_neg hx]
        · rw [if_neg hx, if_neg hr, if_neg hr, if_neg hx]
    · rw [insertRow, if_neg hlt, List.filter_cons]

theorem sortByPageY_filter_key (p : Int) (y : ℚ) (l : List ARow) :
    (sortByPageY l).filter (keyMatches p y) = l.filter (keyMatches p y) := by
  induction l with
  | nil => rfl
  | cons a as ih =>
    rw [sortByPageY, filter_key_insertRow, ih, List.filter_cons]

theorem filter_eq_cons_of_first {α : Type} {q : α → Bool} {l pre post : List α} {r : α}
    (hl : l = pre ++ r :: post) (hr : q r = true) (hpre : ∀ s ∈ pre, q s = false) :
    l.filter q = r :: post.filter q := by
  subst hl
  rw [List.filter_append, List.filter_cons, if_pos hr]
  have hnil : pre.filter q = [] := by
    rw [List.filter_eq_nil_iff]
    intro a ha
    simp [hpre a ha]
  rw [hnil, List.nil_append]

theorem foldl_max_init_le (xs : List ℚ) (a : ℚ) : a ≤ xs.foldl max a := by
  induction xs generalizing a with
  | nil => exact le_refl a
  | cons x xs ih =>
    exact le_trans (le_max_left a x) (ih (max a x))

theorem le_foldl_max_of_mem {x : ℚ} {xs : List ℚ} (a : ℚ) (hx : x ∈ xs) :
    x ≤ xs.foldl max a := by
  induction xs generalizing a with
  | nil => cases hx
  | cons b bs ih =>
    rcases List.mem_cons.mp hx with rfl | hx
    · exact le_trans (le_max_right a x) (foldl_max_init_le bs (max a x))
    · exact ih (max a b) hx

theorem idxmaxFontSize_eq_none {l : List ARow} : idxmaxFontSize l = none ↔ l = [] := by
  cases l with
  | nil => simp [idxmaxFontSize]
  | cons r rs =>
    simp only [idxmaxFontSize]
    cases idxmaxFontSize rs with
    | none => simp
    | some m =>
      by_cases h : r.font_size < m.font_size <;> simp [h]

theorem idxmaxFontSize_first_max {l : List ARow} {r : ARow}
    (h : idxmaxFontSize l = some r) :
    ∃ pre post, l = pre ++ r :: post ∧ (∀ s ∈ l, s.font_size ≤ r.font_size) ∧
      ∀ s ∈ pre, s.font_size < r.font_size := by
  induction l generalizing r with
  | nil => cases h
  | cons x rs ih =>
    rw [idxmaxFontSize] at h
    cases hrs : idxmaxFontSize rs with
    | none =>
      simp only [hrs, Option.some.injEq] at h
      subst h
      have : rs = [] := idxmaxFontSize_eq_none.mp hrs
      subst this
      exact ⟨[], [], rfl, by simp, by simp⟩
    | some m =>
      simp only [hrs] at h
      obtain ⟨pre1, post1, hsplit, hmax, hstrict⟩ := ih hrs
      by_cases hlt : x.font_size < m.font_size
      · rw [if_pos hlt] at h
        injection h with h
        subst h
        refine ⟨x :: pre1, post1, by rw [hsplit, List.cons_append], ?_, ?_⟩
        · intro s hs
          rcases List.mem_cons.mp hs with rfl | hs
          · exact le_of_lt hlt
          · exact hmax s hs
        · intro s hs
          rcases List.mem_cons.mp hs with rfl | hs
          · exact hlt
          · exact hstrict s hs
      · rw [if_neg hlt] at h
        injection h with h
        subst h
        refine ⟨[], rs, rfl, ?_, by simp⟩
        intro s hs
        rcases List.mem_cons.mp hs with rfl | hs
        · exact le_refl _
        · exact le_trans (hmax s hs) (not_lt.mp hlt)

theorem fsAtLeastThreshold_iff {fs mean var std k k2 : ℚ} (hk : 0 ≤ k)
    (hkk : k ^ 2 = k2) (h0 : 0 ≤ std) (hv : std ^ 2 = var) :
    fsAtLeastThreshold fs mean var k2 = true ↔ mean + k * std ≤ fs := by
  subst hkk
  subst hv
  simp only [fsAtLeastThreshold, decide_eq_true_eq]
  constructor
  · rintro ⟨h1, h2⟩
    have hsq : (k * std) ^ 2 ≤ (fs - mean) ^ 2 := by
      rw [mul_pow]
      exact h2
    have hle : k * std ≤ fs - mean :=
      le_of_pow_le_pow_left₀ two_ne_zero (by linarith) hsq
    linarith
  · intro h
    have hks : 0 ≤ k * std := mul_nonneg hk h0
    refine ⟨by linarith, ?_⟩
    have : (k * std) ^ 2 ≤ (fs - mean) ^ 2 :=
      pow_le_pow_left₀ hks (by linarith) 2
    rw [mul_pow] at this
    exact this

theorem chosenCandidates_of_confident {features_df : List ARow}
    (h : features_df.filter isConfidentHeading ≠ []) :
    chosenCandidates features_df = features_df.filter isConfidentHeading := by
  unfold chosenCandidates
  rw [if_neg (by simpa [List.isEmpty_iff] using h)]

theorem chosenCandidates_of_none {features_df : List ARow}
    (h : features_df.filter isConfidentHeading = []) :
    chosenCandidates features_df = heuristic_heading_detection features_df := by
  unfold chosenCandidates
  rw [if_pos (by simpa [List.isEmpty_iff] using h)]

theorem mem_extract_outline {features_df : List ARow} {h : Heading}
    (hh : h ∈ extract_outline features_df) :
    ∃ r ∈ chosenCandidates features_df, h = mkHeading r := by
  unfold extract_outline at hh
  obtain ⟨r, hr, rfl⟩ := List.mem_map.mp hh
  exact ⟨r, (sortByPageY_perm _).mem_iff.mp hr, rfl⟩

theorem heuristic_singleton (r : ARow) : heuristic_heading_detection [r] = [] := by
  simp [heuristic_heading_detection, hhdStdDefined, heuristicClass]

theorem specHeuristicClass_nonneg (mean std : ℚ) (r : ARow) :
    0 ≤ specHeuristicClass mean std r := by
  unfold specHeuristicClass
  split_ifs <;> norm_num

theorem heuristicClass_eq_spec {mean var std : ℚ} (h0 : 0 ≤ std)
    (hv : std ^ 2 = var) (r : ARow) :
    heuristicClass mean var true r = specHeuristicClass mean std r := by
  have h1 : fsAtLeastThreshold r.font_size mean var (9 / 4) = true ↔
      mean + (3 / 2) * std ≤ r.font_size :=
    fsAtLeastThreshold_iff (k := 3 / 2) (by norm_num) (by norm_num) h0 hv
  have h2 : fsAtLeastThreshold r.font_size mean var 1 = true ↔
      mean + 1 * std ≤ r.font_size :=
    fsAtLeastThreshold_iff (k := 1) (by norm_num) (by norm_num) h0 hv
  have h3 : fsAtLeastThreshold r.font_size mean var (1 / 4) = true ↔
      mean + (1 / 2) * std ≤ r.font_size :=
    fsAtLeastThreshold_iff (k := 1 / 2) (by norm_num) (by norm_num) h0 hv
  simp only [heuristicClass, specHeuristicClass, Bool.true_and, Bool.and_eq_true,
    Bool.or_eq_true, decide_eq_true_eq, h1, h2, h3]

theorem extract_title_of_no_confident {features_df : List ARow}
    (h : pageOneConfidentH1 features_df = []) :
    extract_title features_df = (identify_title_heuristic features_df).getD "" := by
  simp only [extract_title, h, idxmaxFontSize]
  cases identify_title_heuristic features_df <;> rfl

theorem identify_title_heuristic_mem {features_df : List ARow} {t : String}
    (h : identify_title_heuristic features_df = some t) :
    ∃ r ∈ features_df, r.page_number = 1 ∧ t = r.text := by
  unfold identify_title_heuristic at h
  by_cases h1 : features_df.isEmpty = true
  · rw [if_pos h1] at h
    cases h
  · rw [if_neg h1] at h
    by_cases h2 : (pageOneRows features_df).isEmpty = true
    · rw [if_pos h2] at h
      cases h
    · rw [if_neg h2] at h
      have fromPageOne : ∀ c : ARow, c ∈ pageOneRows features_df →
          ∃ r ∈ features_df, r.page_number = 1 ∧ c.text = r.text := by
        intro c hc
        have hmem := List.mem_filter.mp hc
        exact ⟨c, hmem.1, by simpa using hmem.2, rfl⟩
      cases hc : titleBoldMaxRows features_df with
      | cons c cs =>
        simp only [hc, Option.some.injEq] at h
        subst h
        have : c ∈ titleBoldMaxRows features_df := by
          rw [hc]
          exact List.mem_cons_self c cs
        exact fromPageOne c (List.mem_filter.mp this).1
      | nil =>
        simp only [hc] at h
        cases hl : titleMaxRows features_df with
        | nil =>
          simp only [hl] at h
          exact Option.noConfusion h
        | cons l ls =>
          simp only [hl, Option.some.injEq] at h
          subst h
          have : l ∈ titleMaxRows features_df := by
            rw [hl]
            exact List.mem_cons_self l ls
          exact fromPageOne l (List.mem_filter.mp this).1

theorem extract_title_mem {features_df : List ARow}
    (h : extract_title features_df ≠ "") :
    ∃ r ∈ features_df, r.page_number = 1 ∧ extract_title features_df = r.text := by
  cases hidx : idxmaxFontSize (pageOneConfidentH1 features_df) with
  | some c =>
    have hmem : c ∈ pageOneConfidentH1 features_df := by
      obtain ⟨pre, post, hsplit, _, _⟩ := idxmaxFontSize_first_max hidx
      rw [hsplit]
      exact List.mem_append_right pre (List.mem_cons_self c post)
    have hp1 : c ∈ pageOneRows features_df := (List.mem_filter.mp hmem).1
    have hdf : c ∈ features_df := (List.mem_filter.mp hp1).1
    have hpg : c.page_number = 1 := by
      have := (List.mem_filter.mp hp1).2
      simpa using this
    exact ⟨c, hdf, hpg, by simp only [extract_title, hidx]⟩
  | none =>
    have hnil : pageOneConfidentH1 features_df = [] := idxmaxFontSize_eq_none.mp hidx
    rw [extract_title_of_no_confident hnil] at h ⊢
    cases hid : identify_title_heuristic features_df with
    | none =>
      rw [hid] at h
      exact absurd rfl h
    | some t =>
      obtain ⟨r, hr, hp, he⟩ := identify_title_heuristic_mem hid
      exact ⟨r, hr, hp, by simpa using he⟩

theorem identify_of_none_page_one {features_df : List ARow}
    (hfp : pageOneRows features_df = []) :
    identify_title_heuristic features_df = none := by
  unfold identify_title_heuristic
  by_cases h1 : features_df.isEmpty = true
  · rw [if_pos h1]
  · rw [if_neg h1, if_pos (by simp [hfp])]

theorem identify_of_boldmax {features_df : List ARow} {pre post : List ARow} {r : ARow}
    (hsplit : pageOneRows features_df = pre ++ r :: post)
    (hr : r.font_size = pageOneMaxFontSize (pageOneRows features_df) ∧ r.is_bold = 1)
    (hpre : ∀ s ∈ pre, ¬(s.font_size = pageOneMaxFontSize (pageOneRows features_df)
      ∧ s.is_bold = 1)) :
    identify_title_heuristic features_df = some r.text := by
  have hrmem : r ∈ pageOneRows features_df := by
    rw [hsplit]
    exact List.mem_append_right pre (List.mem_cons_self r post)
  have hdfne : features_df.isEmpty ≠ true := fun hemp =>
    List.ne_nil_of_mem (List.mem_filter.mp hrmem).1 (List.isEmpty_iff.mp hemp)
  have hfpne : (pageOneRows features_df).isEmpty ≠ true := fun hemp =>
    List.ne_nil_of_mem hrmem (List.isEmpty_iff.mp hemp)
  have hc : titleBoldMaxRows features_df = r :: post.filter
      (fun s => decide (s.font_size = pageOneMaxFontSize (pageOneRows features_df)
        ∧ s.is_bold = 1)) :=
    filter_eq_cons_of_first hsplit (decide_eq_true_eq.mpr hr)
      (fun s hs => decide_eq_false (hpre s hs))
  unfold identify_title_heuristic
  rw [if_neg hdfne, if_neg hfpne]
  simp only [hc]

theorem identify_of_max {features_df : List ARow} {pre post : List ARow} {r : ARow}
    (hnobold : ∀ s ∈ pageOneRows features_df,
      ¬(s.font_size = pageOneMaxFontSize (pageOneRows features_df) ∧ s.is_bold = 1))
    (hsplit : pageOneRows features_df = pre ++ r :: post)
    (hr : r.font_size = pageOneMaxFontSize (pageOneRows features_df))
    (hpre : ∀ s ∈ pre, s.font_size ≠ pageOneMaxFontSize (pageOneRows features_df)) :
    identify_title_heuristic features_df = some r.text := by
  have hrmem : r ∈ pageOneRows features_df := by
    rw [hsplit]
    exact List.mem_append_right pre (List.mem_cons_self r post)
  have hdfne : features_df.isEmpty ≠ true := fun hemp =>
    List.ne_nil_of_mem (List.mem_filter.mp hrmem).1 (List.isEmpty_iff.mp hemp)
  have hfpne : (pageOneRows features_df).isEmpty ≠ true := fun hemp =>
    List.ne_nil_of_mem hrmem (List.isEmpty_iff.mp hemp)
  have hc : titleBoldMaxRows features_df = [] := by
    unfold titleBoldMaxRows
    rw [List.filter_eq_nil_iff]
    intro a ha
    simp only [decide_eq_true_eq]
    exact hnobold a ha
  have hl : titleMaxRows features_df = r :: post.filter
      (fun s => decide (s.font_size = pageOneMaxFontSize (pageOneRows features_df))) :=
    filter_eq_cons_of_first hsplit (decide_eq_true_eq.mpr hr)
      (fun s hs => decide_eq_false (hpre s hs))
  unfold identify_title_heuristic
  rw [if_neg hdfne, if_neg hfpne]
  simp only [hc, hl]

theorem docMaxFontSize_ge {spans : List Span} {s : Span} (hs : s ∈ spans) :
    s.font_size ≤ docMaxFontSize spans := by
  cases spans with
  | nil => cases hs
  | cons a as =>
    simp only [docMaxFontSize, List.map_cons]
    rcases List.mem_cons.mp hs with rfl | hs
    · exact foldl_max_init_le _ _
    · exact le_foldl_max_of_mem _ (List.mem_map_of_mem Span.font_size hs)

theorem docMaxFontSize_pos {spans : List Span} (hne : spans ≠ [])
    (hpos : ∀ s ∈ spans, 0 < s.font_size) : 0 < docMaxFontSize spans := by
  cases spans with
  | nil => exact absurd rfl hne
  | cons a as =>
    have h1 : 0 < a.font_size := hpos a (List.mem_cons_self a as)
    exact lt_of_lt_of_le h1 (docMaxFontSize_ge (List.mem_cons_self a as))

/-- C1: All-or-nothing fallback of the Outline Resolver.  If at least one row
of the annotated feature table has predicted class in {1, 2, 3} with
`max_probability > 0.6`, the candidate set is exactly the set of such rows and
every emitted heading comes from one of them; otherwise the whole candidate
set is the Heuristic Heading Detector's output over the whole table and every
emitted heading comes from it — the two sources are never blended. -/
theorem outline_all_or_nothing (features_df : List ARow) :
    ((∃ r ∈ features_df, isConfidentHeading r = true) →
      chosenCandidates features_df = features_df.filter isConfidentHeading ∧
      ∀ h ∈ extract_outline features_df,
        ∃ r ∈ features_df.filter isConfidentHeading, h = mkHeading r) ∧
    ((¬∃ r ∈ features_df, isConfidentHeading r = true) →
      chosenCandidates features_df = heuristic_heading_detection features_df ∧
      ∀ h ∈ extract_outline features_df,
        ∃ r ∈ heuristic_heading_detection features_df, h = mkHeading r) := by
  constructor
  · intro hex
    have hne : features_df.filter isConfidentHeading ≠ [] := by
      obtain ⟨r, hr, hc⟩ := hex
      intro hnil
      have hmem : r ∈ features_df.filter isConfidentHeading :=
        List.mem_filter.mpr ⟨hr, hc⟩
      rw [hnil] at hmem
      cases hmem
    have hch := chosenCandidates_of_confident hne
    refine ⟨hch, ?_⟩
    intro h hh
    obtain ⟨r, hr, rfl⟩ := mem_extract_outline hh
    rw [hch] at hr
    exact ⟨r, hr, rfl⟩
  · intro hnex
    have hnil : features_df.filter isConfidentHeading = [] := by
      rw [List.filter_eq_nil_iff]
      intro a ha hc
      exact hnex ⟨a, ha, hc⟩
    have hch := chosenCandidates_of_none hnil
    refine ⟨hch, ?_⟩
    intro h hh
    obtain ⟨r, hr, rfl⟩ := mem_extract_outline hh
    rw [hch] at hr
    exact ⟨r, hr, rfl⟩

/-- C2: Title Resolver classifier path.  Whenever some page-1 row has
predicted class 3 with `max_probability > 0.6`, the returned title is the text
of the row of that set with the largest `font_size`, the first such row in
input order when several share the largest size: the set splits as
`pre ++ r :: post` with every row of `pre` strictly smaller, `r` maximal, and
the title equal to `r.text`. -/
theorem title_classifier_path (features_df : List ARow)
    (h : pageOneConfidentH1 features_df ≠ []) :
    ∃ pre r post,
      pageOneConfidentH1 features_df = pre ++ r :: post ∧
      (∀ s ∈ pageOneConfidentH1 features_df, s.font_size ≤ r.font_size) ∧
      (∀ s ∈ pre, s.font_size < r.font_size) ∧
      extract_title features_df = r.text := by
  cases hidx : idxmaxFontSize (pageOneConfidentH1 features_df) with
  | none => exact absurd (idxmaxFontSize_eq_none.mp hidx) h
  | some r =>
    obtain ⟨pre, post, hsplit, hmax, hstrict⟩ := idxmaxFontSize_first_max hidx
    exact ⟨pre, r, post, hsplit, hmax, hstrict, by simp only [extract_title, hidx]⟩

/-- C3: Heuristic Heading Detector.  On any table of at least two rows, with
`mean` the mean font size and `std ≥ 0` the sample standard deviation
(given by `std^2 = ` sample variance), the detector classifies every row by
the first matching rule — H1 if `font_size ≥ mean + 1.5·std` and bold, else
H2 if `font_size ≥ mean + 1.0·std` and bold, else H3 if
`font_size ≥ mean + 0.5·std` and (bold or uppercase), else body — sets
`max_probability = 1.0` on every row, and returns exactly the non-body
rows. -/
theorem heuristic_matches_spec (features_df : List ARow) (std : ℚ)
    (hn : 2 ≤ features_df.length) (h0 : 0 ≤ std)
    (hv : std ^ 2 = hhdVarFontSize features_df) :
    heuristic_heading_detection features_df =
      specHeuristicDetection (hhdMeanFontSize features_df) std features_df := by
  have hsd : hhdStdDefined features_df = true := by
    simp only [hhdStdDefined, decide_eq_true_eq]
    exact hn
  simp only [heuristic_heading_detection, specHeuristicDetection, hsd]
  have hfun : (fun r : ARow =>
      ({ r with
          predicted_class :=
            heuristicClass (hhdMeanFontSize features_df) (hhdVarFontSize features_df) true r,
          max_probability := 1 } : ARow)) =
      (fun r : ARow =>
        ({ r with
            predicted_class := specHeuristicClass (hhdMeanFontSize features_df) std r,
            max_probability := 1 } : ARow)) := by
    funext r
    rw [heuristicClass_eq_spec h0 hv r]
  rw [hfun]
  apply List.filter_congr
  intro a ha
  obtain ⟨r, hr, rfl⟩ := List.mem_map.mp ha
  have h04 : 0 ≤ specHeuristicClass (hhdMeanFontSize features_df) std r :=
    specHeuristicClass_nonneg _ _ _
  apply decide_eq_decide.mpr
  show 0 < specHeuristicClass (hhdMeanFontSize features_df) std r ↔
      specHeuristicClass (hhdMeanFontSize features_df) std r ≠ 0
  omega

/-- C4: Outline ordering and level mapping.  The emitted outline is the
candidate set sorted stably by `(page_number ascending, y_position
ascending)` and mapped through the class-to-level table: the sorted list is
pairwise ordered by the non-strict lexicographic reading order, rows sharing
a sort key keep their original relative order, and the level is H1 for class
3, H2 for class 2, H3 for class 1 and H3 for every other class value. -/
theorem outline_sorted_stable_levels (features_df : List ARow) :
    extract_outline features_df =
      (sortByPageY (chosenCandidates features_df)).map mkHeading ∧
    (sortByPageY (chosenCandidates features_df)).Pairwise rowle ∧
    (∀ (p : Int) (y : ℚ),
      (sortByPageY (chosenCandidates features_df)).filter (keyMatches p y) =
        (chosenCandidates features_df).filter (keyMatches p y)) ∧
    levelOfClass 3 = "H1" ∧ levelOfClass 2 = "H2" ∧ levelOfClass 1 = "H3" ∧
    (∀ c : Int, c ≠ 1 → c ≠ 2 → c ≠ 3 → levelOfClass c = "H3") := by
  refine ⟨rfl, sortByPageY_sorted _, fun p y => sortByPageY_filter_key p y _,
    rfl, rfl, rfl, ?_⟩
  intro c h1 h2 h3
  unfold levelOfClass
  rw [if_neg h3, if_neg h2, if_neg h1]

/-- C5: Empty document contract.  Zero spans yield an empty feature table,
and the pipeline returns exactly `{"title": "", "outline": []}` for every
classifier — the classifier and the resolvers are never consulted. -/
theorem empty_document_result :
    calculate_features [] = [] ∧
    ∀ classify : List FeatureRow → List (Int × ℚ),
      process_pdf classify [] = { title := "", outline := [] } :=
  ⟨rfl, fun _ => rfl⟩

/-- C6: Title Resolver heuristic fallback.  When no page-1 row is a confident
H1, the resolver returns `""` if page 1 has no rows; otherwise the text of
the first page-1 row (input order) that is bold and has the page-1 maximum
font size; and if no such row exists, the text of the first page-1 row whose
font size is the page-1 maximum regardless of style. -/
theorem title_heuristic_fallback (features_df : List ARow)
    (hno : pageOneConfidentH1 features_df = []) :
    (pageOneRows features_df = [] → extract_title features_df = "") ∧
    (∀ pre r post, pageOneRows features_df = pre ++ r :: post →
      (r.font_size = pageOneMaxFontSize (pageOneRows features_df) ∧ r.is_bold = 1) →
      (∀ s ∈ pre, ¬(s.font_size = pageOneMaxFontSize (pageOneRows features_df)
        ∧ s.is_bold = 1)) →
      extract_title features_df = r.text) ∧
    ((∀ s ∈ pageOneRows features_df,
        ¬(s.font_size = pageOneMaxFontSize (pageOneRows features_df) ∧ s.is_bold = 1)) →
      ∀ pre r post, pageOneRows features_df = pre ++ r :: post →
        r.font_size = pageOneMaxFontSize (pageOneRows features_df) →
        (∀ s ∈ pre, s.font_size ≠ pageOneMaxFontSize (pageOneRows features_df)) →
        extract_title features_df = r.text) := by
  rw [extract_title_of_no_confident hno]
  refine ⟨?_, ?_, ?_⟩
  · intro hfp
    rw [identify_of_none_page_one hfp]
    rfl
  · intro pre r post hsplit hr hpre
    rw [identify_of_boldmax hsplit hr hpre]
    rfl
  · intro hnobold pre r post hsplit hr hpre
    rw [identify_of_max hnobold hsplit hr hpre]
    rfl

/-- C7: Normalization bounds.  For a non-empty span sequence with positive
font sizes, every row's `font_size_ratio` lies in `[0, 1]` and equals 1
exactly when the row's font size is the document-wide maximum; the ratio is
0 whenever the document-wide maximum font size is `≤ 0`, and a span's
`position_ratio` is 0 whenever its page height is `≤ 0`. -/
theorem feature_normalization_bounds (spans : List Span) (hne : spans ≠ []) :
    ((∀ s ∈ spans, 0 < s.font_size) →
      ∀ r ∈ calculate_features spans,
        0 ≤ r.font_size_ratio ∧ r.font_size_ratio ≤ 1 ∧
        (r.font_size_ratio = 1 ↔ r.font_size = docMaxFontSize spans)) ∧
    (docMaxFontSize spans ≤ 0 →
      ∀ r ∈ calculate_features spans, r.font_size_ratio = 0) ∧
    (∀ s ∈ spans, s.page_height ≤ 0 →
      (featureOfSpan (docMaxFontSize spans) s).position_ratio = 0) := by
  have hcf : calculate_features spans = spans.map (featureOfSpan (docMaxFontSize spans)) := by
    unfold calculate_features
    rw [if_neg (by simpa [List.isEmpty_iff] using hne)]
  refine ⟨?_, ?_, ?_⟩
  · intro hpos r hr
    rw [hcf] at hr
    obtain ⟨s, hs, rfl⟩ := List.mem_map.mp hr
    have hmax : 0 < docMaxFontSize spans := docMaxFontSize_pos hne hpos
    have hratio : (featureOfSpan (docMaxFontSize spans) s).font_size_ratio =
        s.font_size / docMaxFontSize spans := by
      simp [featureOfSpan, hmax]
    have hfs : (featureOfSpan (docMaxFontSize spans) s).font_size = s.font_size := rfl
    rw [hratio, hfs]
    refine ⟨div_nonneg (hpos s hs).le hmax.le, ?_, ?_⟩
    · exact (div_le_one hmax).mpr (docMaxFontSize_ge hs)
    · rw [div_eq_one_iff_eq hmax.ne']
  · intro hle r hr
    rw [hcf] at hr
    obtain ⟨s, hs, rfl⟩ := List.mem_map.mp hr
    simp [featureOfSpan, not_lt.mpr hle]
  · intro s hs hph
    simp [featureOfSpan, not_lt.mpr hph]

/-- C8: `is_centered` boundary.  A span is centered iff
`|x_position − page_width/2| < 0.1 × page_width`; hence for positive page
width a span at `x = page_width/2` is centered and a span at `x = 0` is
not. -/
theorem is_centered_boundary :
    (∀ (m : ℚ) (s : Span), (featureOfSpan m s).is_centered = 1 ↔
      |s.x0 - s.page_width / 2| < s.page_width * (1 / 10)) ∧
    (∀ (m : ℚ) (s : Span), 0 < s.page_width → s.x0 = s.page_width / 2 →
      (featureOfSpan m s).is_centered = 1) ∧
    (∀ (m : ℚ) (s : Span), 0 < s.page_width → s.x0 = 0 →
      (featureOfSpan m s).is_centered = 0) := by
  have key : ∀ (m : ℚ) (s : Span), (featureOfSpan m s).is_centered = 1 ↔
      |s.x0 - s.page_width / 2| < s.page_width * (1 / 10) := by
    intro m s
    by_cases h : |s.x0 - s.page_width / 2| < s.page_width * (1 / 10)
    · simp [featureOfSpan, h]
    · simp [featureOfSpan, h]
  refine ⟨key, ?_, ?_⟩
  · intro m s hw hx
    rw [key]
    rw [hx, sub_self, abs_zero]
    exact mul_pos hw (by norm_num)
  · intro m s hw hx
    have hhalf : (0 : ℚ) ≤ s.page_width / 2 := by linarith
    have hnc : ¬(|s.x0 - s.page_width / 2| < s.page_width * (1 / 10)) := by
      rw [hx, zero_sub, abs_neg, abs_of_nonneg hhalf]
      exact not_lt.mpr (by linarith)
    show (if |s.x0 - s.page_width / 2| < s.page_width * (1 / 10) then (1 : ℚ) else 0) = 0
    rw [if_neg hnc]

/-- C9: one-row tables defeat the heuristic.  The sample standard deviation
over a single value is undefined (NaN) and every threshold comparison fails,
so the Heuristic Heading Detector returns no candidate for a one-row table
whatever its font size, boldness or uppercase styling; hence a one-span
document whose single row is not classifier-confident gets an empty
outline. -/
theorem single_span_no_headings (r : ARow) (h : isConfidentHeading r = false) :
    heuristic_heading_detection [r] = [] ∧ extract_outline [r] = [] := by
  refine ⟨heuristic_singleton r, ?_⟩
  have hf : ([r].filter isConfidentHeading) = [] := by
    simp [List.filter_cons, h]
  simp [extract_outline, chosenCandidates, hf, heuristic_singleton r, sortByPageY]

/-- C10: a non-empty title is the verbatim text of a page-1 span.  Both on an
arbitrary annotated table and through the whole pipeline, a non-empty
returned title equals the `text` of some row (span) with `page_number = 1`:
neither resolver path ever selects outside page 1. -/
theorem title_from_page_one :
    (∀ features_df : List ARow, extract_title features_df ≠ "" →
      ∃ r ∈ features_df, r.page_number = 1 ∧ extract_title features_df = r.text) ∧
    (∀ (classify : List FeatureRow → List (Int × ℚ)) (spans : List Span),
      (process_pdf classify spans).title ≠ "" →
      ∃ s ∈ spans, s.page_number = 1 ∧ (process_pdf classify spans).title = s.text) := by
  refine ⟨fun _ h => extract_title_mem h, ?_⟩
  intro classify spans h
  unfold process_pdf at h ⊢
  by_cases hemp : (calculate_features spans).isEmpty = true
  · rw [if_pos hemp] at h
    exact absurd rfl h
  · rw [if_neg hemp] at h ⊢
    obtain ⟨r, hr, hpage, htext⟩ := extract_title_mem h
    obtain ⟨pair, hpair, hrp⟩ := List.mem_map.mp hr
    have hfr : pair.1 ∈ calculate_features spans := (List.of_mem_zip hpair).1
    have hsp : spans.isEmpty ≠ true := by
      intro hs
      apply hemp
      unfold calculate_features
      rw [if_pos hs]
      rfl
    have hcf : calculate_features spans = spans.map (featureOfSpan (docMaxFontSize spans)) := by
      unfold calculate_features
      rw [if_neg hsp]
    rw [hcf] at hfr
    obtain ⟨s, hs, hfs⟩ := List.mem_map.mp hfr
    refine ⟨s, hs, ?_, ?_⟩
    · have hpg : r.page_number = s.page_number := by
        rw [← hrp, ← hfs]
        rfl
      rw [← hpg]
      exact hpage
    · show extract_title (annotate (calculate_features spans) (classify (calculate_features spans))) = s.text
      rw [htext, ← hrp]
      show pair.1.text = s.text
      rw [← hfs]
      rfl

/-- Witness for C1: `wdfConfident` has a confident heading and its candidate
set is the classifier filter. -/
theorem outline_all_or_nothing_witness :
    (∃ r ∈ wdfConfident, isConfidentHeading r = true) ∧
    chosenCandidates wdfConfident = wdfConfident.filter isConfidentHeading :=
  ⟨by with_unfolding_all decide, ((outline_all_or_nothing wdfConfident).1 (by with_unfolding_all decide)).1⟩

/-- Witness for C2: the classifier path picks the largest confident page-1
H1 row of `wdfConfident`. -/
theorem title_classifier_path_witness :
    pageOneConfidentH1 wdfConfident ≠ [] ∧
    ∃ pre r post,
      pageOneConfidentH1 wdfConfident = pre ++ r :: post ∧
      (∀ s ∈ pageOneConfidentH1 wdfConfident, s.font_size ≤ r.font_size) ∧
      (∀ s ∈ pre, s.font_size < r.font_size) ∧
      extract_title wdfConfident = r.text :=
  ⟨by with_unfolding_all decide, title_classifier_path wdfConfident (by with_unfolding_all decide)⟩

/-- Witness for C3 at `wdfVariance`, whose sample standard deviation is
exactly 2. -/
theorem heuristic_matches_spec_witness :
    2 ≤ wdfVariance.length ∧ (0 : ℚ) ≤ 2 ∧
    (2 : ℚ) ^ 2 = hhdVarFontSize wdfVariance ∧
    heuristic_heading_detection wdfVariance =
      specHeuristicDetection (hhdMeanFontSize wdfVariance) 2 wdfVariance :=
  ⟨by with_unfolding_all decide, by norm_num, by with_unfolding_all decide,
    heuristic_matches_spec wdfVariance 2 (by with_unfolding_all decide) (by norm_num) (by with_unfolding_all decide)⟩

/-- Witness for C4: the default branch of the level map. -/
theorem outline_sorted_stable_levels_witness : levelOfClass 5 = "H3" :=
  (outline_sorted_stable_levels []).2.2.2.2.2.2 5 (by with_unfolding_all decide) (by with_unfolding_all decide) (by with_unfolding_all decide)

/-- Witness for C6: with no confident prediction, the title of `wdfFallback`
is the first bold page-1 row of maximal font size. -/
theorem title_heuristic_fallback_witness :
    pageOneConfidentH1 wdfFallback = [] ∧ extract_title wdfFallback = "TITLE" :=
  ⟨by with_unfolding_all decide, by
    have h := (title_heuristic_fallback wdfFallback (by with_unfolding_all decide)).2.1
      [sampleRow "small" 1 10 0 0 5 0 (1 / 2)]
      (sampleRow "TITLE" 1 24 1 1 10 0 (1 / 2))
      [sampleRow "big" 1 24 0 0 20 0 (1 / 2)]
      (by with_unfolding_all decide) (by with_unfolding_all decide) (by with_unfolding_all decide)
    exact h⟩

/-- Witness for C7 at the two-span document `wSpans`. -/
theorem feature_normalization_bounds_witness :
    wSpans ≠ [] ∧ (∀ s ∈ wSpans, 0 < s.font_size) ∧
    ∀ r ∈ calculate_features wSpans,
      0 ≤ r.font_size_ratio ∧ r.font_size_ratio ≤ 1 ∧
      (r.font_size_ratio = 1 ↔ r.font_size = docMaxFontSize wSpans) :=
  ⟨by with_unfolding_all decide, by with_unfolding_all decide,
    (feature_normalization_bounds wSpans (by with_unfolding_all decide)).1 (by with_unfolding_all decide)⟩

/-- Witness for C8: a span at the exact centre is centered, one at the left
edge is not. -/
theorem is_centered_boundary_witness :
    (featureOfSpan 24 wSpanCentered).is_centered = 1 ∧
    (featureOfSpan 24 wSpanLeft).is_centered = 0 :=
  ⟨is_centered_boundary.2.1 24 wSpanCentered (by with_unfolding_all decide) (by with_unfolding_all decide),
   is_centered_boundary.2.2 24 wSpanLeft (by with_unfolding_all decide) (by with_unfolding_all decide)⟩

/-- Witness for C9: a huge bold uppercase single row still yields no heading
candidate and an empty outline. -/
theorem single_span_no_headings_witness :
    isConfidentHeading wRowSingle = false ∧
    heuristic_heading_detection [wRowSingle] = [] ∧
    extract_outline [wRowSingle] = [] :=
  ⟨by with_unfolding_all decide, single_span_no_headings wRowSingle (by with_unfolding_all decide)⟩

/-- Witness for C10: the non-empty title of `wdfConfident` is the text of a
page-1 row. -/
theorem title_from_page_one_witness :
    extract_title wdfConfident ≠ "" ∧
    ∃ r ∈ wdfConfident, r.page_number = 1 ∧ extract_title wdfConfident = r.text :=
  ⟨by with_unfolding_all decide, title_from_page_one.1 wdfConfident (by with_unfolding_all decide)⟩
